import Mathlib

/-!
Verification development for the FTDI FT260 USB-HID to I2C/UART bridge driver
(hid-ft260.c).  The driver's report codec, fragmentation loops, status polling
and input-report dispatcher are embedded shallowly as executable Lean
definitions, translated branch by branch from the C source; theorems below
settle the specification claims against these definitions.

Modelling conventions: machine integers are `Nat` with an explicit `% 2 ^ w`
where the C type's wrap-around matters (`read_idx` and the random-read offset
are `u16`); byte buffers are `List Nat` of byte values; Linux `errno`-style
results are `Int` (negative errno on failure, as in the source); fallible or
undefined computations return `Option`/`Except`.  The HID transport is an
oracle: its return codes and the status bytes it delivers are parameters of
the functions that consume them.
-/

namespace FT260

/-! Constants from hid-ft260.c (report ids, bounds, status bits, flags). -/

def FT260_REPORT_MAX_LENGTH : Nat := 64
def FT260_RD_DATA_MAX : Nat := 60
def FT260_WR_DATA_MAX : Nat := 60

def FT260_I2C_STATUS : Nat := 0xC0
def FT260_I2C_READ_REQ : Nat := 0xC2
def FT260_I2C_REPORT_MIN : Nat := 0xD0
def FT260_I2C_REPORT_MAX : Nat := 0xDE
def FT260_UART_REPORT_MIN : Nat := 0xF0
def FT260_UART_REPORT_MAX : Nat := 0xFE
def FT260_SYSTEM_SETTINGS : Nat := 0xA1
def FT260_SET_UART_CONFIG : Nat := 0x41

/-- `FT260_I2C_DATA_REPORT_ID(len)` from the source: `FT260_I2C_REPORT_MIN + ((len) - 1) / 4`.
For `len = 0` the C expression `(0 - 1) / 4` on `int` truncates to `0`, which
agrees with `Nat` subtraction/division here. -/
def FT260_I2C_DATA_REPORT_ID (len : Nat) : Nat := FT260_I2C_REPORT_MIN + (len - 1) / 4

/-- `FT260_UART_DATA_REPORT_ID(len)` from the source. -/
def FT260_UART_DATA_REPORT_ID (len : Nat) : Nat := FT260_UART_REPORT_MIN + (len - 1) / 4

def FT260_I2C_STATUS_CTRL_BUSY : Nat := 0x01
def FT260_I2C_STATUS_ERROR : Nat := 0x02
def FT260_I2C_STATUS_ADDR_NO_ACK : Nat := 0x04
def FT260_I2C_STATUS_DATA_NO_ACK : Nat := 0x08
def FT260_I2C_STATUS_ARBITR_LOST : Nat := 0x10
def FT260_I2C_STATUS_CTRL_IDLE : Nat := 0x20
def FT260_I2C_STATUS_BUS_BUSY : Nat := 0x40

def FT260_FLAG_NONE : Nat := 0x00
def FT260_FLAG_START : Nat := 0x02
def FT260_FLAG_START_REPEATED : Nat := 0x03
def FT260_FLAG_STOP : Nat := 0x04
def FT260_FLAG_START_STOP : Nat := 0x06
def FT260_FLAG_START_STOP_REPEATED : Nat := 0x07

/-! Linux errno values used by the driver (returned negated, as in C). -/

def eio : Int := 5
def eagain : Int := 11
def ebusy : Int := 16
def einval : Int := 22
def ebadr : Int := 53
def eopnotsupp : Int := 95
def etimedout : Int := 110

/-! Little-endian byte encoding helpers (model of `memcpy` into multi-byte
integers and of `put_unaligned_le32`). -/

/-- Value of a little-endian byte list (each element is one byte). -/
def leVal : List Nat → Nat
  | [] => 0
  | b :: bs => b + 256 * leVal bs

/-- The `n` little-endian bytes of `v`. -/
def leBytes : Nat → Nat → List Nat
  | _, 0 => []
  | v, n + 1 => v % 256 :: leBytes (v / 256) n

/-! I2C write-request reports: `struct ft260_i2c_write_request_report`. -/

structure I2cWriteReport where
  report : Nat
  address : Nat
  flag : Nat
  length : Nat
  data : List Nat
deriving DecidableEq

/-- `ft260_i2c_write` (hid-ft260.c lines 461-499), as the list of write-request
reports its do-while loop emits on a fully successful run.  Each iteration
takes `len = min(data_len, FT260_WR_DATA_MAX)` bytes, stamps the report id
with `FT260_I2C_DATA_REPORT_ID(len)`, and loops while bytes remain.  Because
the loop is do-while, an empty payload still emits one zero-length report. -/
def ft260_i2c_write (addr : Nat) (data : List Nat) (flag : Nat) : List I2cWriteReport :=
  if data.length ≤ FT260_WR_DATA_MAX then
    [{ report := FT260_I2C_DATA_REPORT_ID data.length
       address := addr
       flag := flag
       length := data.length
       data := data.take data.length }]
  else
    { report := FT260_I2C_DATA_REPORT_ID FT260_WR_DATA_MAX
      address := addr
      flag := flag
      length := FT260_WR_DATA_MAX
      data := data.take FT260_WR_DATA_MAX } ::
    ft260_i2c_write addr (data.drop FT260_WR_DATA_MAX) flag
termination_by data.length
decreasing_by
  simp only [List.length_drop, FT260_WR_DATA_MAX] at *
  omega

/-- `ft260_smbus_write` (hid-ft260.c lines 501-530): a single write-request
report carrying `[cmd, data...]`.  `none` models the `-EINVAL` rejection when
`data_len >= sizeof(rep->data)`.  Note the source computes the report id from
`len = 4 + rep->length`, the total report length, not from the data chunk
length `rep->length = data_len + 1`. -/
def ft260_smbus_write (addr cmd : Nat) (data : List Nat) (flag : Nat) :
    Option I2cWriteReport :=
  if FT260_WR_DATA_MAX ≤ data.length then none
  else
    let payload := cmd :: data
    let len := 4 + payload.length
    some { report := FT260_I2C_DATA_REPORT_ID len
           address := addr
           flag := flag
           length := payload.length
           data := payload }

/-! UART transmit path: `struct ft260_uart_write_request_report` and
`ft260_uart_transmit_chars`. -/

structure UartWriteReport where
  report : Nat
  length : Nat
  data : List Nat
deriving DecidableEq

/-- The do-while drain loop inside `ft260_uart_transmit_chars` (hid-ft260.c
lines 1096-1112): chunks of `min(data_len, FT260_WR_DATA_MAX)` bytes, report
id `FT260_UART_DATA_REPORT_ID(len)`. -/
def uartTransmitLoop (fifo : List Nat) : List UartWriteReport :=
  if fifo.length ≤ FT260_WR_DATA_MAX then
    [{ report := FT260_UART_DATA_REPORT_ID fifo.length
       length := fifo.length
       data := fifo.take fifo.length }]
  else
    { report := FT260_UART_DATA_REPORT_ID FT260_WR_DATA_MAX
      length := FT260_WR_DATA_MAX
      data := fifo.take FT260_WR_DATA_MAX } ::
    uartTransmitLoop (fifo.drop FT260_WR_DATA_MAX)
termination_by fifo.length
decreasing_by
  simp only [List.length_drop, FT260_WR_DATA_MAX] at *
  omega

/-- `ft260_uart_transmit_chars` (hid-ft260.c lines 1078-1123), as the list of
UART write-request reports sent for a given transmit-fifo content: an empty
fifo bails out with `-EINVAL` before the loop and sends nothing. -/
def ft260_uart_transmit_chars (fifo : List Nat) : List UartWriteReport :=
  if fifo.length = 0 then [] else uartTransmitLoop fifo

/-! Status polling: `ft260_xfer_status` and
`ft260_hid_output_report_check_status`. -/

/-- `ft260_xfer_status` (hid-ft260.c lines 371-412) restricted to its status
decoding, for a successfully fetched I2C status report with bus-status byte
`bus_status`.  The source tests the bits in this order: `CTRL_BUSY` gives
`-EAGAIN`, then `BUS_BUSY` gives `-EBUSY`, then `ERROR` gives `-EIO`;
otherwise `ret` starts at `-EIO`, the NO_ACK/arbitration bits are only
logged, and `CTRL_IDLE` turns `ret` into `0`. -/
def ft260_xfer_status (bus_status : Nat) : Int :=
  if bus_status &&& FT260_I2C_STATUS_CTRL_BUSY ≠ 0 then -eagain
  else if bus_status &&& FT260_I2C_STATUS_BUS_BUSY ≠ 0 then -ebusy
  else if bus_status &&& FT260_I2C_STATUS_ERROR ≠ 0 then -eio
  else if bus_status &&& FT260_I2C_STATUS_CTRL_IDLE ≠ 0 then 0
  else -eio

/-- The `do { ret = ft260_xfer_status(dev); if (ret != -EAGAIN) break; }
while (--try);` loop of `ft260_hid_output_report_check_status`, with `try`
entering at 3.  `statuses i` is the bus-status byte returned by the `i`-th
status poll; the result is the final `ret` together with the number of polls
performed. -/
def pollXferStatus (statuses : Nat → Nat) (i : Nat) (t : Nat) : Int × Nat :=
  if t = 0 then (-eagain, 0)
  else if ft260_xfer_status (statuses i) ≠ -eagain then
    (ft260_xfer_status (statuses i), 1)
  else if t - 1 = 0 then (-eagain, 1)
  else ((pollXferStatus statuses (i + 1) (t - 1)).1,
        (pollXferStatus statuses (i + 1) (t - 1)).2 + 1)
termination_by t
decreasing_by all_goals omega

/-- Observable outcome of `ft260_hid_output_report_check_status`: final return
value, number of `ft260_i2c_reset` calls, number of status polls, and the
computed sleep duration `usec` (0 on the early-error path that returns before
computing it). -/
structure CheckStatusOut where
  ret : Int
  resets : Nat
  polls : Nat
  usec : Nat
deriving DecidableEq

/-- `ft260_hid_output_report_check_status` (hid-ft260.c lines 430-459).
`clock` is the cached `dev->clock` at entry, `len` the report length,
`sendRet` the transport's return for `ft260_hid_output_report`, and
`statuses` the bus-status bytes delivered by successive polls.  The source
computes `usec = 10000 / dev->clock * len` with no zero guard; `none` models
the division-by-zero (undefined in C) reached when `clock = 0` after a
successful send.  After polling, `ret == 0 || ret == -EBUSY` is success;
anything else resets the bus and returns `-EIO`. -/
def ft260_hid_output_report_check_status (clock len : Nat) (sendRet : Int)
    (statuses : Nat → Nat) : Option CheckStatusOut :=
  if sendRet < 0 then some { ret := sendRet, resets := 1, polls := 0, usec := 0 }
  else if clock = 0 then none
  else if (pollXferStatus statuses 0 3).1 = 0 ∨
      (pollXferStatus statuses 0 3).1 = -ebusy then
    some { ret := 0, resets := 0, polls := (pollXferStatus statuses 0 3).2,
           usec := 10000 / clock * len }
  else
    some { ret := -eio, resets := 1, polls := (pollXferStatus statuses 0 3).2,
           usec := 10000 / clock * len }

/-! I2C read path: `ft260_i2c_read`. -/

/-- `ft260_i2c_read` (hid-ft260.c lines 532-578), with the environment's
nondeterminism as parameters: `sendRet` is the transport return for the read
request, `completed` whether `wait_for_completion_timeout` (5000 ms deadline)
got the completion before timing out, and `statusRet` the subsequent
`ft260_xfer_status` result.  The output is the number of `ft260_i2c_reset`
calls paired with the function's return value.  The source re-initialises the
completion before sending, so a stale completion from an earlier transaction
cannot satisfy the wait; on timeout it resets exactly once and returns
`-ETIMEDOUT` without consulting the completion again. -/
def ft260_i2c_read (len : Nat) (sendRet : Int) (completed : Bool)
    (statusRet : Int) : Nat × Int :=
  if FT260_RD_DATA_MAX < len then (0, -einval)
  else if sendRet < 0 then (0, sendRet)
  else if ¬completed then (1, -etimedout)
  else if statusRet = 0 then (0, 0)
  else (1, -eio)

/-! Combined write-then-read transfer: `ft260_i2c_write_read`. -/

/-- A sub-operation issued by the combined-transfer loop. -/
inductive I2cOp where
  | wr (addr : Nat) (data : List Nat) (flag : Nat)
  | rd (addr : Nat) (len : Nat) (flag : Nat)
deriving DecidableEq

/-- The do-while loop of `ft260_i2c_write_read` (hid-ft260.c lines 603-626):
each iteration writes the `wrLen` low-order little-endian bytes of the `u16`
current offset with `FT260_FLAG_START`, then reads `min(left_len, 60)` bytes
with `FT260_FLAG_START_STOP`, then advances the offset (mod 2^16). -/
def writeReadLoop (addr wrLen : Nat) (readOff leftLen : Nat) : List I2cOp :=
  if leftLen ≤ FT260_RD_DATA_MAX then
    [I2cOp.wr addr (leBytes readOff wrLen) FT260_FLAG_START,
     I2cOp.rd addr leftLen FT260_FLAG_START_STOP]
  else
    I2cOp.wr addr (leBytes readOff wrLen) FT260_FLAG_START ::
    I2cOp.rd addr FT260_RD_DATA_MAX FT260_FLAG_START_STOP ::
    writeReadLoop addr wrLen ((readOff + FT260_RD_DATA_MAX) % 65536)
      (leftLen - FT260_RD_DATA_MAX)
termination_by leftLen
decreasing_by
  simp only [FT260_RD_DATA_MAX] at *
  omega

/-- `ft260_i2c_write_read` (hid-ft260.c lines 586-629): a first message longer
than 2 bytes is rejected with `-EOPNOTSUPP` before anything is sent; otherwise
`msgs[0].buf` is `memcpy`-ed into a zero-initialised `u16` offset (little
endian) and the loop above runs over the second message's length. -/
def ft260_i2c_write_read (addr : Nat) (msg0 : List Nat) (msg1Len : Nat) :
    Except Int (List I2cOp) :=
  if 2 < msg0.length then Except.error (-eopnotsupp)
  else Except.ok (writeReadLoop addr msg0.length (leVal msg0 % 65536) msg1Len)

/-! SMBus dispatch: `ft260_smbus_xfer`. -/

/-- Destination inside `union i2c_smbus_data` that an SMBus read targets:
`&data->byte`, `(u8 *)&data->word`, or `data->block + off`. -/
inductive SmbusDest where
  | byte
  | word
  | block (off : Nat)
deriving DecidableEq

/-- A sub-call issued by the `ft260_smbus_xfer` switch: a `ft260_smbus_write`
(wire payload `cmd :: data`) or a `ft260_i2c_read` of `len` bytes into
`dest`. -/
inductive SmbusOp where
  | wr (addr cmd : Nat) (data : List Nat) (flag : Nat)
  | rd (addr : Nat) (dest : SmbusDest) (len : Nat) (flag : Nat)
deriving DecidableEq

def I2C_SMBUS_QUICK : Nat := 0
def I2C_SMBUS_BYTE : Nat := 1
def I2C_SMBUS_BYTE_DATA : Nat := 2
def I2C_SMBUS_WORD_DATA : Nat := 3
def I2C_SMBUS_BLOCK_DATA : Nat := 5
def I2C_SMBUS_I2C_BLOCK_DATA : Nat := 8

/-- `ft260_smbus_xfer` (hid-ft260.c lines 671-777), as the sequence of
engine sub-calls its switch issues for each size class on an error-free run.
`isRead` is `read_write == I2C_SMBUS_READ`; `data` models the
`union i2c_smbus_data` as a byte list laid out like `data->block`
(so `data.headD 0` is `block[0]`, the block length byte, and for the
byte/word classes `data.take 1`/`data.take 2` are `&data->byte` and
`&data->word`).  An unsupported size class is `-EOPNOTSUPP`. -/
def ft260_smbus_xfer (addr : Nat) (isRead : Bool) (cmd : Nat) (size : Nat)
    (data : List Nat) : Except Int (List SmbusOp) :=
  if size = I2C_SMBUS_QUICK then
    Except.ok (if isRead then [SmbusOp.rd addr SmbusDest.byte 0 FT260_FLAG_START_STOP]
      else [SmbusOp.wr addr cmd [] FT260_FLAG_START_STOP])
  else if size = I2C_SMBUS_BYTE then
    Except.ok (if isRead then [SmbusOp.rd addr SmbusDest.byte 1 FT260_FLAG_START_STOP]
      else [SmbusOp.wr addr cmd [] FT260_FLAG_START_STOP])
  else if size = I2C_SMBUS_BYTE_DATA then
    Except.ok (if isRead then
        [SmbusOp.wr addr cmd [] FT260_FLAG_START,
         SmbusOp.rd addr SmbusDest.byte 1 FT260_FLAG_START_STOP_REPEATED]
      else [SmbusOp.wr addr cmd (data.take 1) FT260_FLAG_START_STOP])
  else if size = I2C_SMBUS_WORD_DATA then
    Except.ok (if isRead then
        [SmbusOp.wr addr cmd [] FT260_FLAG_START,
         SmbusOp.rd addr SmbusDest.word 2 FT260_FLAG_START_STOP_REPEATED]
      else [SmbusOp.wr addr cmd (data.take 2) FT260_FLAG_START_STOP])
  else if size = I2C_SMBUS_BLOCK_DATA then
    Except.ok (if isRead then
        [SmbusOp.wr addr cmd [] FT260_FLAG_START,
         SmbusOp.rd addr (SmbusDest.block 0) (data.headD 0 + 1)
           FT260_FLAG_START_STOP_REPEATED]
      else [SmbusOp.wr addr cmd (data.take (data.headD 0 + 1)) FT260_FLAG_START_STOP])
  else if size = I2C_SMBUS_I2C_BLOCK_DATA then
    Except.ok (if isRead then
        [SmbusOp.wr addr cmd [] FT260_FLAG_START,
         SmbusOp.rd addr (SmbusDest.block 1) (data.headD 0)
           FT260_FLAG_START_STOP_REPEATED]
      else [SmbusOp.wr addr cmd ((data.drop 1).take (data.headD 0))
              FT260_FLAG_START_STOP])
  else Except.error (-eopnotsupp)

/-! Input-report dispatcher: `ft260_raw_event`. -/

/-- The pending-read descriptor fields of `struct ft260_device` touched by the
dispatcher.  `read_buf` holds the bytes delivered so far (the dispatcher
always `memcpy`s at offset `read_idx`, which starts at 0 and advances by each
report's length, so the destination contents are exactly this accumulated
list); `read_idx` is a `u16` in the source and is kept reduced mod 2^16. -/
structure PendingRead where
  read_buf : List Nat
  read_idx : Nat
  read_len : Nat
deriving DecidableEq

/-- What `ft260_raw_event` did with one input report. -/
inductive RawAction where
  | i2cData (completed : Bool)
  | badReport
  | uartForward (data : List Nat) (length : Nat)
  | unknownDropped
deriving DecidableEq

/-- An input report as decoded by `struct ft260_input_report`: report id,
length field, and the wire payload bytes. -/
structure InputReport where
  report : Nat
  length : Nat
  data : List Nat
deriving DecidableEq

def inI2cRange (r : InputReport) : Prop :=
  FT260_I2C_REPORT_MIN ≤ r.report ∧ r.report ≤ FT260_I2C_REPORT_MAX

instance (r : InputReport) : Decidable (inI2cRange r) := by
  unfold inI2cRange
  infer_instance

def inUartRange (r : InputReport) : Prop :=
  FT260_UART_REPORT_MIN ≤ r.report ∧ r.report ≤ FT260_UART_REPORT_MAX

instance (r : InputReport) : Decidable (inUartRange r) := by
  unfold inUartRange
  infer_instance

/-- `ft260_raw_event` (hid-ft260.c lines 1522-1548), rules in source order:
an id in the I2C data range appends `length` payload bytes at `read_idx` and
signals the completion exactly when the updated `read_idx` equals `read_len`;
else a length above `FT260_RD_DATA_MAX` is `-EBADR`; else an id in the UART
data range is forwarded to `ft260_uart_receive_chars`; else the report is
dropped with return 0 (non-fatal). -/
def ft260_raw_event (s : PendingRead) (r : InputReport) : PendingRead × RawAction :=
  if inI2cRange r then
    let idx := (s.read_idx + r.length) % 65536
    ({ read_buf := s.read_buf ++ r.data.take r.length
       read_idx := idx
       read_len := s.read_len },
     RawAction.i2cData (idx == s.read_len))
  else if FT260_RD_DATA_MAX < r.length then
    (s, RawAction.badReport)
  else if inUartRange r then
    (s, RawAction.uartForward (r.data.take r.length) r.length)
  else
    (s, RawAction.unknownDropped)

/-- Whether an action signalled the pending-read completion. -/
def signaled : RawAction → Bool
  | RawAction.i2cData c => c
  | _ => false

/-- Sum of the length fields of a report list. -/
def sumLens (rs : List InputReport) : Nat := (rs.map (fun r => r.length)).sum

/-- Fold the dispatcher over a delivery sequence; the Bool records whether the
completion was signalled at any point. -/
def runEvents : PendingRead → List InputReport → PendingRead × Bool
  | s, [] => (s, false)
  | s, r :: rs =>
    ((runEvents (ft260_raw_event s r).1 rs).1,
     signaled (ft260_raw_event s r).2 || (runEvents (ft260_raw_event s r).1 rs).2)

/-! UART line configuration: `ft260_uart_change_speed`. -/

def FT260_CFG_FLOW_CTRL_OFF : Nat := 0x00
def FT260_CFG_FLOW_CTRL_RTS_CTS : Nat := 0x01
def FT260_CFG_FLOW_CTRL_DTR_DSR : Nat := 0x02
def FT260_CFG_FLOW_CTRL_XON_XOFF : Nat := 0x03
def FT260_CFG_FLOW_CTRL_NONE : Nat := 0x04
def FT260_CFG_DATA_BITS_7 : Nat := 0x07
def FT260_CFG_DATA_BITS_8 : Nat := 0x08
def FT260_CFG_PAR_NO : Nat := 0x00
def FT260_CFG_PAR_ODD : Nat := 0x01
def FT260_CFG_PAR_EVEN : Nat := 0x02
def FT260_CFG_STOP_ONE_BIT : Nat := 0x00
def FT260_CFG_STOP_TWO_BIT : Nat := 0x02
def FT260_CFG_BREAKING_NO : Nat := 0x00
def FT260_CFG_BAUD_MIN : Nat := 1200
def FT260_CFG_BAUD_MAX : Nat := 12000000

/-- The termios `CSIZE` field values the source switches on. -/
inductive CSizeOpt where
  | cs5
  | cs6
  | cs7
  | cs8
deriving DecidableEq

/-- `struct ft260_configure_uart_request`, with the unaligned `__le32`
baudrate field held as its four little-endian wire bytes. -/
structure UartConfig where
  report : Nat
  request : Nat
  flow_ctrl : Nat
  baudrate : List Nat
  data_bit : Nat
  parity : Nat
  stop_bit : Nat
  breaking : Nat
deriving DecidableEq

/-- Wire bytes of the packed `ft260_configure_uart_request` (11 bytes; the
baudrate occupies offsets 3..6, unaligned). -/
def uartConfigBytes (c : UartConfig) : List Nat :=
  [c.report, c.request, c.flow_ctrl] ++ c.baudrate ++
  [c.data_bit, c.parity, c.stop_bit, c.breaking]

/-- `ft260_uart_change_speed` (hid-ft260.c lines 1174-1244), as the feature
report it builds and sends.  The first component is the flow-control value the
source derives from `CRTSCTS` just before unconditionally overwriting
`req.flow_ctrl` with `FT260_CFG_FLOW_CTRL_NONE` (and `req.breaking` with
`FT260_CFG_BREAKING_NO`); the overwritten value is observable only in the
debug log.  Data bits: CS7 maps to 7; CS5/CS6 are reported as invalid and
corrected to 8; CS8 (and the switch default) map to 8.  A baud of 0, below
`FT260_CFG_BAUD_MIN` or above `FT260_CFG_BAUD_MAX` is replaced by 9600 before
`put_unaligned_le32` encodes it. -/
def ft260_uart_change_speed (csize : CSizeOpt) (cstopb parenb parodd crtscts : Bool)
    (baud : Nat) : Nat × UartConfig :=
  let data_bit :=
    match csize with
    | CSizeOpt.cs7 => FT260_CFG_DATA_BITS_7
    | CSizeOpt.cs5 => FT260_CFG_DATA_BITS_8
    | CSizeOpt.cs6 => FT260_CFG_DATA_BITS_8
    | CSizeOpt.cs8 => FT260_CFG_DATA_BITS_8
  let stop_bit := if cstopb then FT260_CFG_STOP_TWO_BIT else FT260_CFG_STOP_ONE_BIT
  let parity :=
    if parenb then (if parodd then FT260_CFG_PAR_ODD else FT260_CFG_PAR_EVEN)
    else FT260_CFG_PAR_NO
  let baud' :=
    if baud = 0 ∨ baud < FT260_CFG_BAUD_MIN ∨ FT260_CFG_BAUD_MAX < baud then 9600
    else baud
  let flowDerived :=
    if crtscts then FT260_CFG_FLOW_CTRL_RTS_CTS else FT260_CFG_FLOW_CTRL_OFF
  (flowDerived,
   { report := FT260_SYSTEM_SETTINGS
     request := FT260_SET_UART_CONFIG
     flow_ctrl := FT260_CFG_FLOW_CTRL_NONE
     baudrate := leBytes baud' 4
     data_bit := data_bit
     parity := parity
     stop_bit := stop_bit
     breaking := FT260_CFG_BREAKING_NO })

/-! General lemmas about the fragmentation loops. -/

theorem ft260_i2c_write_mem (addr flag : Nat) (data : List Nat) :
    ∀ r ∈ ft260_i2c_write addr data flag,
      r.report = FT260_I2C_DATA_REPORT_ID r.length ∧ r.length = r.data.length ∧
      r.address = addr ∧ r.flag = flag ∧ r.length ≤ FT260_WR_DATA_MAX := by
  induction data, flag using ft260_i2c_write.induct addr with
  | case1 d fl h =>
    intro r hr
    rw [ft260_i2c_write, if_pos h] at hr
    simp only [List.mem_singleton] at hr
    subst hr
    refine ⟨rfl, ?_, rfl, rfl, h⟩
    simp [List.take_of_length_le (le_refl d.length)]
  | case2 d fl h ih =>
    intro r hr
    rw [ft260_i2c_write, if_neg h] at hr
    rcases List.mem_cons.mp hr with hr | hr
    · subst hr
      refine ⟨rfl, ?_, rfl, rfl, le_refl _⟩
      simp only [List.length_take, FT260_WR_DATA_MAX] at *
      omega
    · exact ih r hr

theorem ft260_i2c_write_flatten (addr flag : Nat) (data : List Nat) :
    ((ft260_i2c_write addr data flag).map (fun r => r.data)).flatten = data := by
  induction data, flag using ft260_i2c_write.induct addr with
  | case1 d fl h =>
    rw [ft260_i2c_write, if_pos h]
    simp [List.take_of_length_le (le_refl d.length)]
  | case2 d fl h ih =>
    rw [ft260_i2c_write, if_neg h]
    simp only [List.map_cons, List.flatten_cons, ih]
    exact List.take_append_drop FT260_WR_DATA_MAX d

theorem ft260_i2c_write_count (addr flag : Nat) (data : List Nat) (hne : data ≠ []) :
    (ft260_i2c_write addr data flag).length = (data.length + 59) / 60 := by
  induction data, flag using ft260_i2c_write.induct addr with
  | case1 d fl h =>
    have h1 : 1 ≤ d.length := List.length_pos.mpr hne
    rw [ft260_i2c_write, if_pos h]
    simp only [List.length_singleton, FT260_WR_DATA_MAX] at *
    omega
  | case2 d fl h ih =>
    have h' : 60 < d.length := by
      simp only [FT260_WR_DATA_MAX] at h
      omega
    have hne2 : List.drop FT260_WR_DATA_MAX d ≠ [] := by
      intro hc
      have hlen := congrArg List.length hc
      simp only [List.length_drop, List.length_nil, FT260_WR_DATA_MAX] at hlen
      omega
    rw [ft260_i2c_write, if_neg h, List.length_cons, ih hne2]
    simp only [List.length_drop, FT260_WR_DATA_MAX]
    omega

theorem ft260_i2c_write_len61 (addr flag : Nat) (data : List Nat)
    (h : data.length = 61) :
    (ft260_i2c_write addr data flag).map (fun r => r.length) = [60, 1] := by
  have h1 : ¬ data.length ≤ FT260_WR_DATA_MAX := by
    simp only [FT260_WR_DATA_MAX]
    omega
  have h2 : (data.drop FT260_WR_DATA_MAX).length ≤ FT260_WR_DATA_MAX := by
    simp only [List.length_drop, FT260_WR_DATA_MAX]
    omega
  rw [ft260_i2c_write, if_neg h1, ft260_i2c_write, if_pos h2]
  simp only [List.map_cons, List.map_nil, List.length_drop, FT260_WR_DATA_MAX, h]

theorem uartTransmitLoop_mem (fifo : List Nat) :
    ∀ r ∈ uartTransmitLoop fifo,
      r.report = FT260_UART_DATA_REPORT_ID r.length ∧ r.length = r.data.length := by
  induction fifo using uartTransmitLoop.induct with
  | case1 d h =>
    intro r hr
    rw [uartTransmitLoop, if_pos h] at hr
    simp only [List.mem_singleton] at hr
    subst hr
    refine ⟨rfl, ?_⟩
    simp [List.take_of_length_le (le_refl d.length)]
  | case2 d h ih =>
    intro r hr
    rw [uartTransmitLoop, if_neg h] at hr
    rcases List.mem_cons.mp hr with hr | hr
    · subst hr
      refine ⟨rfl, ?_⟩
      simp only [List.length_take, FT260_WR_DATA_MAX] at *
      omega
    · exact ih r hr

theorem ft260_uart_transmit_chars_mem (fifo : List Nat) :
    ∀ r ∈ ft260_uart_transmit_chars fifo,
      r.report = FT260_UART_DATA_REPORT_ID r.length ∧ r.length = r.data.length := by
  intro r hr
  unfold ft260_uart_transmit_chars at hr
  by_cases hf : fifo.length = 0
  · rw [if_pos hf] at hr
    exact absurd hr (List.not_mem_nil r)
  · rw [if_neg hf] at hr
    exact uartTransmitLoop_mem fifo r hr

/-! Claim theorems. -/

/-- C1 (counterexample): the claim predicts that the SMBus single-report
write's report id is the base id plus `(chunk_length - 1) / 4`; for a
command-only write the chunk (payload) length is 1, so the prediction is
`0xD0`, but `ft260_smbus_write` stamps `0xD1` because it feeds the total
report length `len = 4 + rep->length` into `FT260_I2C_DATA_REPORT_ID`. -/
theorem c1_smbus_report_id_counterexample :
    (ft260_smbus_write 0x50 0x10 [] FT260_FLAG_START_STOP).map
        (fun r => (r.report, r.length)) = some (0xD1, 1) ∧
      FT260_I2C_DATA_REPORT_ID 1 = 0xD0 := by
  exact ⟨rfl, rfl⟩

/-- C1 (amended): every I2C write fragment and every UART transmit chunk has
report id `base + (chunk_length - 1) / 4`; the SMBus single-report write
instead derives its id from the total report length, i.e. its id is
`base + ((chunk_length + 4) - 1) / 4` where `chunk_length` is its data
payload length (`rep->length`). -/
theorem c1_report_id_encoding :
    (∀ addr flag : Nat, ∀ data : List Nat, ∀ r ∈ ft260_i2c_write addr data flag,
        r.report = FT260_I2C_DATA_REPORT_ID r.length) ∧
    (∀ fifo : List Nat, ∀ r ∈ ft260_uart_transmit_chars fifo,
        r.report = FT260_UART_DATA_REPORT_ID r.length) ∧
    (∀ addr cmd flag : Nat, ∀ data : List Nat, ∀ rep : I2cWriteReport,
        ft260_smbus_write addr cmd data flag = some rep →
        rep.report = FT260_I2C_DATA_REPORT_ID (rep.length + 4)) := by
  refine ⟨?_, ?_, ?_⟩
  · intro addr flag data r hr
    exact (ft260_i2c_write_mem addr flag data r hr).1
  · intro fifo r hr
    exact (ft260_uart_transmit_chars_mem fifo r hr).1
  · intro addr cmd flag data rep hrep
    unfold ft260_smbus_write at hrep
    by_cases hlen : FT260_WR_DATA_MAX ≤ data.length
    · rw [if_pos hlen] at hrep
      exact absurd hrep (Option.some_ne_none rep).symm
    · rw [if_neg hlen] at hrep
      have := (Option.some.injEq _ _).mp hrep.symm
      subst this
      simp only [List.length_cons]
      congr 1
      omega

/-- C1 (witness): the single fragment of a 3-byte I2C write is in the
fragment list and its report id is `FT260_I2C_DATA_REPORT_ID` of its chunk
length. -/
theorem c1_report_id_encoding_witness :
    (⟨0xD0, 0x50, FT260_FLAG_START_STOP, 3, [1, 2, 3]⟩ : I2cWriteReport) ∈
        ft260_i2c_write 0x50 [1, 2, 3] FT260_FLAG_START_STOP ∧
      (⟨0xD0, 0x50, FT260_FLAG_START_STOP, 3, [1, 2, 3]⟩ : I2cWriteReport).report =
        FT260_I2C_DATA_REPORT_ID 3 := by
  have hm : (⟨0xD0, 0x50, FT260_FLAG_START_STOP, 3, [1, 2, 3]⟩ : I2cWriteReport) ∈
      ft260_i2c_write 0x50 [1, 2, 3] FT260_FLAG_START_STOP := by
    rw [ft260_i2c_write]
    norm_num [FT260_WR_DATA_MAX, FT260_I2C_DATA_REPORT_ID, FT260_I2C_REPORT_MIN,
      FT260_FLAG_START_STOP]
  exact ⟨hm, c1_report_id_encoding.1 0x50 FT260_FLAG_START_STOP [1, 2, 3] _ hm⟩

/-- C2 (counterexample): the claim predicts `ceil(L / 60)` fragments for every
payload length `L`, i.e. zero fragments for the empty payload, but the
do-while loop of `ft260_i2c_write` always emits at least one report: the
empty payload produces exactly one zero-length fragment. -/
theorem c2_empty_payload_counterexample :
    (ft260_i2c_write 0x50 [] FT260_FLAG_START_STOP).length = 1 ∧
      (([] : List Nat).length + 59) / 60 = 0 := by
  constructor
  · rw [ft260_i2c_write]
    norm_num [FT260_WR_DATA_MAX]
  · norm_num

/-- C2 (amended): for every nonempty payload of length `L` the I2C write
issues exactly `ceil(L / 60)` fragment reports (an empty payload issues one
zero-length fragment instead of zero); each fragment's length field equals
its true chunk length; the concatenation of the fragments' data equals the
original payload; `L = 60` produces exactly one fragment and `L = 61`
produces two fragments of 60 and 1 bytes. -/
theorem c2_write_fragmentation (addr flag : Nat) (data : List Nat) :
    (data ≠ [] → (ft260_i2c_write addr data flag).length = (data.length + 59) / 60) ∧
    ((ft260_i2c_write addr data flag).map (fun r => r.data)).flatten = data ∧
    (∀ r ∈ ft260_i2c_write addr data flag, r.length = r.data.length) ∧
    (data.length = 60 → (ft260_i2c_write addr data flag).length = 1) ∧
    (data.length = 61 →
      (ft260_i2c_write addr data flag).map (fun r => r.length) = [60, 1]) := by
  refine ⟨fun hne => ft260_i2c_write_count addr flag data hne,
    ft260_i2c_write_flatten addr flag data,
    fun r hr => (ft260_i2c_write_mem addr flag data r hr).2.1,
    fun h60 => ?_, fun h61 => ft260_i2c_write_len61 addr flag data h61⟩
  have hne : data ≠ [] := by
    intro hc
    rw [hc] at h60
    simp at h60
  rw [ft260_i2c_write_count addr flag data hne, h60]

/-- C2 (witness): a 61-byte payload gives two fragments, of 60 and 1 bytes,
whose data concatenates back to the payload. -/
theorem c2_write_fragmentation_witness :
    (ft260_i2c_write 0x50 (List.replicate 61 0xAB) FT260_FLAG_START_STOP).length = 2 ∧
      (ft260_i2c_write 0x50 (List.replicate 61 0xAB) FT260_FLAG_START_STOP).map
        (fun r => r.length) = [60, 1] := by
  have hc := c2_write_fragmentation 0x50 FT260_FLAG_START_STOP (List.replicate 61 0xAB)
  have hlen : (List.replicate 61 0xAB).length = 61 := List.length_replicate 61 0xAB
  have hne : List.replicate 61 0xAB ≠ ([] : List Nat) := by
    intro hcon
    rw [hcon] at hlen
    simp at hlen
  refine ⟨?_, hc.2.2.2.2 hlen⟩
  rw [hc.1 hne, hlen]

/-! Lemmas about the status-poll loop. -/

theorem pollXferStatus_le (statuses : Nat → Nat) (t : Nat) :
    ∀ i, (pollXferStatus statuses i t).2 ≤ t := by
  induction t using Nat.strong_induction_on with
  | _ t ih =>
    intro i
    rw [pollXferStatus]
    split_ifs with h1 h2 h3
    · omega
    · simp
      omega
    · simp
      omega
    · have := ih (t - 1) (by omega) (i + 1)
      simp
      omega

/-- C4: if the 5-second wait in `ft260_i2c_read` times out, the function
performs exactly one bus reset and returns `-ETIMEDOUT` (the completion was
re-initialised before the send, so no stale completion can be returned); if
the wait completes but `ft260_xfer_status` is not idle (nonzero), it resets
the bus once and returns `-EIO`; if the wait completes and the bus is idle it
returns success with no reset. -/
theorem c4_read_timeout_reset (len : Nat) (sendRet statusRet : Int)
    (hlen : len ≤ FT260_RD_DATA_MAX) (hsend : 0 ≤ sendRet) :
    ft260_i2c_read len sendRet false statusRet = (1, -etimedout) ∧
    (statusRet ≠ 0 → ft260_i2c_read len sendRet true statusRet = (1, -eio)) ∧
    ft260_i2c_read len sendRet true 0 = (0, 0) := by
  have h1 : ¬ FT260_RD_DATA_MAX < len := not_lt.mpr hlen
  have h2 : ¬ sendRet < 0 := not_lt.mpr hsend
  refine ⟨by simp [ft260_i2c_read, h1, h2], fun hs => by simp [ft260_i2c_read, h1, h2, hs],
    by simp [ft260_i2c_read, h1, h2]⟩

/-- C4 (witness): a 1-byte read whose wait times out resets once and returns
`-ETIMEDOUT`. -/
theorem c4_read_timeout_reset_witness :
    ft260_i2c_read 1 0 false (-eio) = (1, -etimedout) := by
  exact (c4_read_timeout_reset 1 0 (-eio)
    (by norm_num [FT260_RD_DATA_MAX]) (le_refl 0)).1

/-- C5: after a successful output-report send (with a nonzero cached clock),
the status report is polled at most 3 times; three consecutive `CTRL_BUSY`
statuses exhaust the retries and cause a bus reset and `-EIO`; a first status
of `BUS_BUSY` is accepted as success (no reset); `CTRL_IDLE` is success;
`ERROR`, `ADDR_NO_ACK`, `DATA_NO_ACK` or `ARBITRATION_LOST` as the polled
status is a failure causing one bus reset and `-EIO`; and a `CTRL_BUSY`
followed by `CTRL_IDLE` retries once (2 polls) and succeeds. -/
theorem c5_status_poll_retry (clock len : Nat) (sendRet : Int) (statuses : Nat → Nat)
    (hclk : clock ≠ 0) (hsend : 0 ≤ sendRet) :
    (∀ out, ft260_hid_output_report_check_status clock len sendRet statuses = some out →
      out.polls ≤ 3) ∧
    (statuses 0 = FT260_I2C_STATUS_CTRL_BUSY → statuses 1 = FT260_I2C_STATUS_CTRL_BUSY →
      statuses 2 = FT260_I2C_STATUS_CTRL_BUSY →
      ft260_hid_output_report_check_status clock len sendRet statuses =
        some { ret := -eio, resets := 1, polls := 3, usec := 10000 / clock * len }) ∧
    (statuses 0 = FT260_I2C_STATUS_BUS_BUSY →
      ft260_hid_output_report_check_status clock len sendRet statuses =
        some { ret := 0, resets := 0, polls := 1, usec := 10000 / clock * len }) ∧
    (statuses 0 = FT260_I2C_STATUS_CTRL_IDLE →
      ft260_hid_output_report_check_status clock len sendRet statuses =
        some { ret := 0, resets := 0, polls := 1, usec := 10000 / clock * len }) ∧
    ((statuses 0 = FT260_I2C_STATUS_ERROR ∨ statuses 0 = FT260_I2C_STATUS_ADDR_NO_ACK ∨
      statuses 0 = FT260_I2C_STATUS_DATA_NO_ACK ∨
      statuses 0 = FT260_I2C_STATUS_ARBITR_LOST) →
      ft260_hid_output_report_check_status clock len sendRet statuses =
        some { ret := -eio, resets := 1, polls := 1, usec := 10000 / clock * len }) ∧
    (statuses 0 = FT260_I2C_STATUS_CTRL_BUSY → statuses 1 = FT260_I2C_STATUS_CTRL_IDLE →
      ft260_hid_output_report_check_status clock len sendRet statuses =
        some { ret := 0, resets := 0, polls := 2, usec := 10000 / clock * len }) := by
  have hns : ¬ sendRet < 0 := not_lt.mpr hsend
  refine ⟨?_, ?_, ?_, ?_, ?_, ?_⟩
  · intro out hout
    rw [ft260_hid_output_report_check_status, if_neg hns, if_neg hclk] at hout
    have hp := pollXferStatus_le statuses 3 0
    split_ifs at hout with h <;>
      (have heq := Option.some.inj hout; rw [← heq]; exact hp)
  · intro h0 h1 h2
    have hx0 : ft260_xfer_status (statuses 0) = -eagain := by rw [h0]; decide
    have hx1 : ft260_xfer_status (statuses 1) = -eagain := by rw [h1]; decide
    have hx2 : ft260_xfer_status (statuses 2) = -eagain := by rw [h2]; decide
    have hpoll : pollXferStatus statuses 0 3 = (-eagain, 3) := by
      simp [pollXferStatus, hx0, hx1, hx2]
    rw [ft260_hid_output_report_check_status, if_neg hns, if_neg hclk, hpoll]
    norm_num [eagain, ebusy]
  · intro h0
    have hx0 : ft260_xfer_status (statuses 0) = -ebusy := by rw [h0]; decide
    have hpoll : pollXferStatus statuses 0 3 = (-ebusy, 1) := by
      rw [pollXferStatus]
      norm_num [hx0, eagain, ebusy]
    rw [ft260_hid_output_report_check_status, if_neg hns, if_neg hclk, hpoll]
    norm_num
  · intro h0
    have hx0 : ft260_xfer_status (statuses 0) = 0 := by rw [h0]; decide
    have hpoll : pollXferStatus statuses 0 3 = (0, 1) := by
      rw [pollXferStatus]
      norm_num [hx0, eagain]
    rw [ft260_hid_output_report_check_status, if_neg hns, if_neg hclk, hpoll]
    norm_num
  · intro h0
    have hx0 : ft260_xfer_status (statuses 0) = -eio := by
      rcases h0 with h0 | h0 | h0 | h0 <;> (rw [h0]; decide)
    have hpoll : pollXferStatus statuses 0 3 = (-eio, 1) := by
      rw [pollXferStatus]
      norm_num [hx0, eagain, eio]
    rw [ft260_hid_output_report_check_status, if_neg hns, if_neg hclk, hpoll]
    norm_num [eio, ebusy]
  · intro h0 h1
    have hx0 : ft260_xfer_status (statuses 0) = -eagain := by rw [h0]; decide
    have hx1 : ft260_xfer_status (statuses 1) = 0 := by rw [h1]; decide
    have hpoll : pollXferStatus statuses 0 3 = (0, 2) := by
      simp [pollXferStatus, hx0, hx1, eagain]
    rw [ft260_hid_output_report_check_status, if_neg hns, if_neg hclk, hpoll]
    norm_num

/-- C5 (witness): with a first status of `BUS_BUSY`, the check accepts the
transfer (return 0, no reset) after one poll. -/
theorem c5_status_poll_retry_witness :
    ft260_hid_output_report_check_status 100 5 0 (fun _ => 0x40) =
      some { ret := 0, resets := 0, polls := 1, usec := 500 } := by
  exact (c5_status_poll_retry 100 5 0 (fun _ => 0x40)
    (by norm_num) (le_refl 0)).2.2.1 rfl

/-- C10: the post-send wait computation is `usec = 10000 / clock * len`
(division by the cached bus clock first, then multiplication by the report
length); there is no zero guard, so after a successful send the computation
is defined only when the cached clock is nonzero, and a cached clock of 0
reaches the division-by-zero (modelled `none`). -/
theorem c10_wait_time_division (clock len : Nat) (sendRet : Int)
    (statuses : Nat → Nat) (hsend : 0 ≤ sendRet) :
    (clock = 0 → ft260_hid_output_report_check_status clock len sendRet statuses = none) ∧
    (clock ≠ 0 →
      (ft260_hid_output_report_check_status clock len sendRet statuses).map
        (fun out => out.usec) = some (10000 / clock * len)) := by
  have hns : ¬ sendRet < 0 := not_lt.mpr hsend
  constructor
  · intro h0
    rw [ft260_hid_output_report_check_status, if_neg hns, if_pos h0]
  · intro hclk
    rw [ft260_hid_output_report_check_status, if_neg hns, if_neg hclk]
    split_ifs <;> rfl

/-- C10 (witness): with cached clock 3000 kHz and a 7-byte report the wait is
`10000 / 3000 * 7 = 21` microseconds (dividing first: `10000 * 7 / 3000`
would give 23), and a cached clock of 0 reaches the undefined division. -/
theorem c10_wait_time_division_witness :
    (ft260_hid_output_report_check_status 3000 7 0 (fun _ => 0x20)).map
        (fun out => out.usec) = some 21 ∧
      ft260_hid_output_report_check_status 0 7 0 (fun _ => 0x20) = none ∧
      10000 * 7 / 3000 = 23 := by
  refine ⟨?_, ?_, by norm_num⟩
  · have h := (c10_wait_time_division 3000 7 0 (fun _ => 0x20) (le_refl 0)).2
      (by norm_num)
    rw [h]
  · exact (c10_wait_time_division 0 7 0 (fun _ => 0x20) (le_refl 0)).1 rfl

/-! Little-endian roundtrip lemmas (for the `memcpy` of the random-read
offset in `ft260_i2c_write_read`). -/

theorem leVal_lt (bs : List Nat) (h : ∀ b ∈ bs, b < 256) :
    leVal bs < 256 ^ bs.length := by
  induction bs with
  | nil => simp [leVal]
  | cons b bs ih =>
    have hb : b < 256 := h b (List.mem_cons_self b bs)
    have hm : leVal bs < 256 ^ bs.length :=
      ih (fun x hx => h x (List.mem_cons_of_mem b hx))
    simp only [leVal, List.length_cons, pow_succ]
    nlinarith

theorem leBytes_leVal (bs : List Nat) (h : ∀ b ∈ bs, b < 256) :
    leBytes (leVal bs) bs.length = bs := by
  induction bs with
  | nil => simp [leBytes]
  | cons b bs ih =>
    have hb : b < 256 := h b (List.mem_cons_self b bs)
    have ihs := ih (fun x hx => h x (List.mem_cons_of_mem b hx))
    simp only [leVal, List.length_cons, leBytes]
    have hmod : (b + 256 * leVal bs) % 256 = b := by omega
    have hdiv : (b + 256 * leVal bs) / 256 = leVal bs := by omega
    rw [hmod, hdiv, ihs]

/-- C6: for a combined write-then-read transfer, a first message longer than
2 bytes is rejected with `-EOPNOTSUPP` before any report is issued; otherwise
the first two sub-operations are a write of the first message's payload with
condition `Start` followed by a read of `min(msgs[1].len, 60)` bytes with
condition `StartStop`. -/
theorem c6_write_then_read (addr : Nat) (msg0 : List Nat) (msg1Len : Nat)
    (hb : ∀ b ∈ msg0, b < 256) :
    (2 < msg0.length →
      ft260_i2c_write_read addr msg0 msg1Len = Except.error (-eopnotsupp)) ∧
    (msg0.length ≤ 2 →
      (ft260_i2c_write_read addr msg0 msg1Len).toOption.map (fun ops => ops.take 2) =
        some [I2cOp.wr addr msg0 FT260_FLAG_START,
              I2cOp.rd addr (min msg1Len 60) FT260_FLAG_START_STOP]) := by
  constructor
  · intro hlen
    rw [ft260_i2c_write_read, if_pos hlen]
  · intro hlen
    have hlt : leVal msg0 < 65536 := by
      have h1 := leVal_lt msg0 hb
      have h2 : (256 : Nat) ^ msg0.length ≤ 256 ^ 2 :=
        Nat.pow_le_pow_right (by norm_num) hlen
      norm_num at h2
      omega
    have hdata : leBytes (leVal msg0 % 65536) msg0.length = msg0 := by
      rw [Nat.mod_eq_of_lt hlt]
      exact leBytes_leVal msg0 hb
    rw [ft260_i2c_write_read, if_neg (not_lt.mpr hlen), writeReadLoop]
    by_cases hrd : msg1Len ≤ FT260_RD_DATA_MAX
    · rw [if_pos hrd]
      have hmin : min msg1Len 60 = msg1Len := by
        simp only [FT260_RD_DATA_MAX] at hrd
        omega
      simp [hdata, hmin]
      exact ⟨_, rfl, rfl⟩
    · rw [if_neg hrd]
      have hmin : min msg1Len 60 = 60 := by
        simp only [FT260_RD_DATA_MAX] at hrd
        omega
      simp [hdata, hmin, FT260_RD_DATA_MAX]
      exact ⟨_, rfl, rfl⟩

/-- C6 (witness): a 2-byte first message with a 4-byte read issues a write of
the 2 offset bytes with Start, then a 4-byte read with StartStop. -/
theorem c6_write_then_read_witness :
    (ft260_i2c_write_read 0x50 [0x12, 0x34] 4).toOption.map (fun ops => ops.take 2) =
      some [I2cOp.wr 0x50 [0x12, 0x34] FT260_FLAG_START,
            I2cOp.rd 0x50 (min 4 60) FT260_FLAG_START_STOP] := by
  exact (c6_write_then_read 0x50 [0x12, 0x34] 4 (by
    intro b hbm
    simp only [List.mem_cons, List.not_mem_nil, or_false] at hbm
    rcases hbm with h | h <;> omega)).2 (by norm_num)

/-- C7: an SMBus BlockData read issues a single-report write carrying only
the command byte with condition Start, then a read of `block[0] + 1` bytes
with condition StartStopRepeated into the block buffer at offset 0 (the
received length byte is the first received byte); an I2cBlockData read
instead reads `block[0]` bytes into `block + 1`, so the length byte is not
transferred over the wire.  The command-only `ft260_smbus_write` has chunk
length 1 and wire data `[cmd]`.  Concretely, `addr = 0x50`, `cmd = 0x10`,
`block[0] = 5` gives a 6-byte read. -/
theorem c7_smbus_block_read (addr cmd : Nat) (data : List Nat) :
    ft260_smbus_xfer addr true cmd I2C_SMBUS_BLOCK_DATA data =
      Except.ok [SmbusOp.wr addr cmd [] FT260_FLAG_START,
        SmbusOp.rd addr (SmbusDest.block 0) (data.headD 0 + 1)
          FT260_FLAG_START_STOP_REPEATED] ∧
    ft260_smbus_xfer addr true cmd I2C_SMBUS_I2C_BLOCK_DATA data =
      Except.ok [SmbusOp.wr addr cmd [] FT260_FLAG_START,
        SmbusOp.rd addr (SmbusDest.block 1) (data.headD 0)
          FT260_FLAG_START_STOP_REPEATED] ∧
    (ft260_smbus_write addr cmd [] FT260_FLAG_START).map
        (fun r => (r.length, r.data)) = some (1, [cmd]) ∧
    ft260_smbus_xfer 0x50 true 0x10 I2C_SMBUS_BLOCK_DATA (5 :: List.replicate 33 0) =
      Except.ok [SmbusOp.wr 0x50 0x10 [] FT260_FLAG_START,
        SmbusOp.rd 0x50 (SmbusDest.block 0) 6 FT260_FLAG_START_STOP_REPEATED] := by
  exact ⟨rfl, rfl, rfl, rfl⟩

/-- C8: a requested baud of 0 or outside [1200, 12000000] is corrected to
9600, and the corrected value is what is encoded, as 4 unaligned
little-endian bytes at offset 3 of the configuration report, into the report
that is sent; an in-range baud is encoded as requested; data-bit sizes CS5
and CS6 are corrected to 8 data bits, CS7 gives 7, CS8 gives 8. -/
theorem c8_uart_line_config (csize : CSizeOpt) (cstopb parenb parodd crtscts : Bool)
    (baud : Nat) :
    ((baud = 0 ∨ baud < FT260_CFG_BAUD_MIN ∨ FT260_CFG_BAUD_MAX < baud) →
      (ft260_uart_change_speed csize cstopb parenb parodd crtscts baud).2.baudrate =
          leBytes 9600 4 ∧
        List.take 4 (List.drop 3 (uartConfigBytes
          (ft260_uart_change_speed csize cstopb parenb parodd crtscts baud).2)) =
          leBytes 9600 4) ∧
    (¬(baud = 0 ∨ baud < FT260_CFG_BAUD_MIN ∨ FT260_CFG_BAUD_MAX < baud) →
      (ft260_uart_change_speed csize cstopb parenb parodd crtscts baud).2.baudrate =
        leBytes baud 4) ∧
    ((csize = CSizeOpt.cs5 ∨ csize = CSizeOpt.cs6) →
      (ft260_uart_change_speed csize cstopb parenb parodd crtscts baud).2.data_bit =
        FT260_CFG_DATA_BITS_8) ∧
    (csize = CSizeOpt.cs7 →
      (ft260_uart_change_speed csize cstopb parenb parodd crtscts baud).2.data_bit =
        FT260_CFG_DATA_BITS_7) ∧
    (csize = CSizeOpt.cs8 →
      (ft260_uart_change_speed csize cstopb parenb parodd crtscts baud).2.data_bit =
        FT260_CFG_DATA_BITS_8) := by
  refine ⟨?_, ?_, ?_, ?_, ?_⟩
  · intro h
    constructor
    · simp [ft260_uart_change_speed, if_pos h]
    · simp [ft260_uart_change_speed, if_pos h, uartConfigBytes, leBytes]
  · intro h
    simp [ft260_uart_change_speed, if_neg h]
  · intro h
    rcases h with h | h <;> (subst h; rfl)
  · intro h
    subst h
    rfl
  · intro h
    subst h
    rfl

/-- C8 (witness): a requested baud of 300 (below the 1200 minimum) with CS5
data bits is sent as 9600 with 8 data bits. -/
theorem c8_uart_line_config_witness :
    (ft260_uart_change_speed CSizeOpt.cs5 false false false false 300).2.baudrate =
        leBytes 9600 4 ∧
      (ft260_uart_change_speed CSizeOpt.cs5 false false false false 300).2.data_bit =
        FT260_CFG_DATA_BITS_8 := by
  have h := c8_uart_line_config CSizeOpt.cs5 false false false false 300
  exact ⟨(h.1 (by norm_num [FT260_CFG_BAUD_MIN])).1, h.2.2.1 (Or.inl rfl)⟩

/-- C9: the configuration report actually sent always carries flow-control
forced to the no-flow-control setting (`FT260_CFG_FLOW_CTRL_NONE`) and break
forced to no-break, regardless of the requested values; the RTS/CTS flow
control derived from the termios `CRTSCTS` bit (the first component, visible
only in the debug log) is discarded by the override. -/
theorem c9_flow_ctrl_forced (csize : CSizeOpt) (cstopb parenb parodd crtscts : Bool)
    (baud : Nat) :
    (ft260_uart_change_speed csize cstopb parenb parodd crtscts baud).2.flow_ctrl =
      FT260_CFG_FLOW_CTRL_NONE ∧
    (ft260_uart_change_speed csize cstopb parenb parodd crtscts baud).2.breaking =
      FT260_CFG_BREAKING_NO ∧
    (ft260_uart_change_speed csize cstopb parenb parodd crtscts baud).1 =
      (if crtscts then FT260_CFG_FLOW_CTRL_RTS_CTS else FT260_CFG_FLOW_CTRL_OFF) := by
  exact ⟨rfl, rfl, rfl⟩

/-! Lemmas about the input-report dispatcher. -/

theorem sumLens_nil : sumLens [] = 0 := rfl

theorem sumLens_cons (r : InputReport) (rs : List InputReport) :
    sumLens (r :: rs) = r.length + sumLens rs := by
  simp [sumLens]

/-- Running the dispatcher over a sequence of in-range I2C data reports whose
length fields match their payloads, without `u16` wrap-around: the bytes land
in the destination in delivery order, `read_idx` tracks the total, and the
completion fires exactly at a report after which the accumulated offset
equals `read_len`. -/
theorem runEvents_i2c (rs : List InputReport) :
    ∀ s : PendingRead,
      (∀ r ∈ rs, inI2cRange r ∧ r.data.length = r.length) →
      s.read_idx + sumLens rs < 65536 →
      (runEvents s rs).1.read_buf = s.read_buf ++ (rs.map (fun r => r.data)).flatten ∧
      (runEvents s rs).1.read_idx = s.read_idx + sumLens rs ∧
      (runEvents s rs).1.read_len = s.read_len ∧
      ((runEvents s rs).2 = true ↔
        ∃ k, k < rs.length ∧ s.read_idx + sumLens (rs.take (k + 1)) = s.read_len) := by
  induction rs with
  | nil =>
    intro s hall hlt
    simp [runEvents, sumLens]
  | cons r rs ih =>
    intro s hall hlt
    have hr := hall r (List.mem_cons_self r rs)
    have hsum : sumLens (r :: rs) = r.length + sumLens rs := sumLens_cons r rs
    have hstep : ft260_raw_event s r =
        ({ read_buf := s.read_buf ++ r.data
           read_idx := s.read_idx + r.length
           read_len := s.read_len },
         RawAction.i2cData ((s.read_idx + r.length) == s.read_len)) := by
      rw [ft260_raw_event, if_pos hr.1]
      have htake : r.data.take r.length = r.data := by
        rw [← hr.2]
        exact List.take_length r.data
      have hmod : (s.read_idx + r.length) % 65536 = s.read_idx + r.length :=
        Nat.mod_eq_of_lt (by omega)
      rw [htake, hmod]
    have hall' : ∀ x ∈ rs, inI2cRange x ∧ x.data.length = x.length :=
      fun x hx => hall x (List.mem_cons_of_mem r hx)
    have hlt' : (s.read_idx + r.length) + sumLens rs < 65536 := by omega
    have hih := ih { read_buf := s.read_buf ++ r.data
                     read_idx := s.read_idx + r.length
                     read_len := s.read_len } hall' hlt'
    obtain ⟨hbuf, hidx, hlen2, hiff⟩ := hih
    dsimp only at hbuf hidx hlen2 hiff
    rw [runEvents, hstep]
    dsimp only [signaled]
    refine ⟨?_, ?_, ?_, ?_⟩
    · rw [hbuf]
      simp [List.append_assoc]
    · rw [hidx, hsum]
      omega
    · exact hlen2
    · rw [Bool.or_eq_true, beq_iff_eq]
      constructor
      · rintro (heq | hrest)
        · exact ⟨0, by simp, by simpa [sumLens_cons, sumLens_nil] using heq⟩
        · obtain ⟨k, hk, hke⟩ := hiff.mp hrest
          refine ⟨k + 1, by simpa using Nat.succ_lt_succ hk, ?_⟩
          rw [List.take_succ_cons, sumLens_cons]
          simpa [Nat.add_assoc] using hke
      · rintro ⟨k, hk, hke⟩
        cases k with
        | zero =>
          left
          simpa [List.take_succ_cons, sumLens_cons, sumLens_nil] using hke
        | succ j =>
          right
          refine hiff.mpr ⟨j, by simpa using Nat.lt_of_succ_lt_succ hk, ?_⟩
          rw [List.take_succ_cons, sumLens_cons] at hke
          simpa [Nat.add_assoc] using hke

/-- C3: the dispatcher evaluates its rules in source order: an I2C-range
report id appends its `length` payload bytes at the current offset and
signals completion exactly when the accumulated offset equals `read_len`;
otherwise a length above 60 is `BadReport`; otherwise a UART-range id is
forwarded to the UART receive path; otherwise the report is dropped
non-fatally.  Consequently, for a pending read of length `L ≤ 60` fed
in-range I2C data reports (no `u16` wrap), the destination receives the
payload bytes in delivery order and completion is signalled exactly when
some delivered prefix totals `L` bytes. -/
theorem c3_dispatcher_rules :
    (∀ (s : PendingRead) (r : InputReport), inI2cRange r →
      ft260_raw_event s r =
        ({ read_buf := s.read_buf ++ r.data.take r.length
           read_idx := (s.read_idx + r.length) % 65536
           read_len := s.read_len },
         RawAction.i2cData (((s.read_idx + r.length) % 65536) == s.read_len))) ∧
    (∀ (s : PendingRead) (r : InputReport), ¬inI2cRange r →
      FT260_RD_DATA_MAX < r.length →
      ft260_raw_event s r = (s, RawAction.badReport)) ∧
    (∀ (s : PendingRead) (r : InputReport), ¬inI2cRange r →
      r.length ≤ FT260_RD_DATA_MAX → inUartRange r →
      ft260_raw_event s r = (s, RawAction.uartForward (r.data.take r.length) r.length)) ∧
    (∀ (s : PendingRead) (r : InputReport), ¬inI2cRange r →
      r.length ≤ FT260_RD_DATA_MAX → ¬inUartRange r →
      ft260_raw_event s r = (s, RawAction.unknownDropped)) ∧
    (∀ (L : Nat) (rs : List InputReport), L ≤ FT260_RD_DATA_MAX →
      (∀ r ∈ rs, inI2cRange r ∧ r.data.length = r.length) →
      sumLens rs < 65536 →
      (runEvents { read_buf := [], read_idx := 0, read_len := L } rs).1.read_buf =
          (rs.map (fun r => r.data)).flatten ∧
        ((runEvents { read_buf := [], read_idx := 0, read_len := L } rs).2 = true ↔
          ∃ k, k < rs.length ∧ sumLens (rs.take (k + 1)) = L)) := by
  refine ⟨?_, ?_, ?_, ?_, ?_⟩
  · intro s r h
    rw [ft260_raw_event, if_pos h]
  · intro s r h hlen
    rw [ft260_raw_event, if_neg h, if_pos hlen]
  · intro s r h hlen hu
    rw [ft260_raw_event, if_neg h, if_neg (not_lt.mpr hlen), if_pos hu]
  · intro s r h hlen hu
    rw [ft260_raw_event, if_neg h, if_neg (not_lt.mpr hlen), if_neg hu]
  · intro L rs hL hall hlt
    have h := runEvents_i2c rs { read_buf := [], read_idx := 0, read_len := L } hall
      (by simpa using hlt)
    refine ⟨by simpa using h.1, ?_⟩
    rw [h.2.2.2]
    simp

/-- C3 (witness): a single I2C data report of 3 bytes delivered against a
pending 3-byte read appends all 3 bytes and signals completion. -/
theorem c3_dispatcher_rules_witness :
    ft260_raw_event { read_buf := [], read_idx := 0, read_len := 3 }
        { report := 0xD0, length := 3, data := [1, 2, 3] } =
      ({ read_buf := [1, 2, 3], read_idx := 3, read_len := 3 },
       RawAction.i2cData true) := by
  have h := c3_dispatcher_rules.1 { read_buf := [], read_idx := 0, read_len := 3 }
    { report := 0xD0, length := 3, data := [1, 2, 3] }
    (by constructor <;> norm_num [FT260_I2C_REPORT_MIN, FT260_I2C_REPORT_MAX])
  rw [h]
  rfl

end FT260
